import Mathlib

/-!
Verification of the DeathStarBench resilience-demo core
(socialNetwork/resilience-demo: simulate.py and gate.py), shallowly
embedded in Lean 4.  Python floats are modelled as exact rationals and
Python dicts as association lists that preserve insertion order.
-/

/-! ## Reliability model (simulate.py, _service_reliability) -/

/-- Embedding of simulate.py's _service_reliability: clamp replicas to at
least 1, clamp pfail into [0,1], joint failure is pf ** replicas, and the
result is clamp(1 - joint_failure, 0, 1). -/
def service_reliability (pfail : ℚ) (replicas : ℤ) : ℚ :=
  let r := max 1 replicas
  let pf := max 0 (min 1 pfail)
  let joint_failure := pf ^ r.toNat
  max 0 (min 1 (1 - joint_failure))

/-- Formula stated by the specification for the reliability model:
clamp(1 - clamp(pfail,0,1)^max(replicas,1), 0, 1).  Written from the
spec's words, to be compared with service_reliability. -/
def serviceReliabilitySpec (pfail : ℚ) (replicas : ℤ) : ℚ :=
  max 0 (min 1 (1 - (max 0 (min 1 pfail)) ^ (max replicas 1).toNat))

/-! ## Path reliability (simulate.py, _path_reliability) -/

/-- Loop of simulate.py's _path_reliability: walk the service sequence
with the set of already visited services and the running score; services
already seen are skipped, otherwise the looked-up reliability (default
1.0 when absent from the map) is multiplied in, and the final score is
clamped to [0,1]. -/
def path_reliability_go (m : List (String × ℚ)) :
    List String → List String → ℚ → ℚ
  | [], _, score => max 0 (min 1 score)
  | s :: rest, seen, score =>
    if s ∈ seen then path_reliability_go m rest seen score
    else path_reliability_go m rest (s :: seen) (score * ((m.lookup s).getD 1))

/-- Embedding of simulate.py's _path_reliability. -/
def path_reliability (path_services : List String) (reliabilities : List (String × ℚ)) : ℚ :=
  path_reliability_go reliabilities path_services [] 1

/-- The subsequence of first occurrences of a list, relative to a set of
names that are already considered seen.  Used to state what the
first-occurrence-only traversals of simulate.py compute. -/
def firstOcc : List String → List String → List String
  | [], _ => []
  | s :: rest, seen =>
    if s ∈ seen then firstOcc rest seen else s :: firstOcc rest (s :: seen)

lemma path_reliability_go_eq (m : List (String × ℚ)) (l : List String) :
    ∀ (seen : List String) (score : ℚ),
      path_reliability_go m l seen score =
        max 0 (min 1 (score * ((firstOcc l seen).map (fun s => (m.lookup s).getD 1)).prod)) := by
  induction l with
  | nil => intro seen score; simp [path_reliability_go, firstOcc]
  | cons s rest ih =>
    intro seen score
    by_cases h : s ∈ seen
    · simp [path_reliability_go, firstOcc, h, ih]
    · simp only [path_reliability_go, firstOcc, if_neg h, ih, List.map_cons, List.prod_cons]
      ring_nf

/-! ## Replica overlay parser (simulate.py, _load_simple_yaml)

Python ints are modelled as Lean integers; int(value) is modelled as an
optional-sign, all-digits parser (Python's extra acceptance of numeric
underscores and unicode digits is outside the inputs this repository
uses).  splitlines is modelled as splitting on the newline character. -/

/-- Digit-string accumulator for pyInt. -/
def pyIntDigitsGo : List Char → Nat → Option Nat
  | [], acc => some acc
  | c :: rest, acc =>
    if c.isDigit then pyIntDigitsGo rest (acc * 10 + (c.toNat - '0'.toNat)) else none

/-- A nonempty all-digit character list parsed as a natural number. -/
def pyIntDigits (cs : List Char) : Option Nat :=
  if cs.isEmpty then none else pyIntDigitsGo cs 0

/-- Model of Python's int() applied to an already stripped string. -/
def pyInt (s : String) : Option ℤ :=
  match s.data with
  | '-' :: rest => (pyIntDigits rest).map (fun n => -(n : ℤ))
  | '+' :: rest => (pyIntDigits rest).map (fun n => (n : ℤ))
  | cs => (pyIntDigits cs).map (fun n => (n : ℤ))

/-- The three ValueError sites of _load_simple_yaml. -/
inductive YamlError where
  | invalidLine (raw : String)
  | missingValue (key : String)
  | nonIntegerValue (key : String)
deriving DecidableEq

/-- Python dict assignment d[k] = v: overwrite in place when the key is
present, append at the end otherwise. -/
def dictInsert {α β : Type} [DecidableEq α] : List (α × β) → α → β → List (α × β)
  | [], k, v => [(k, v)]
  | (k0, v0) :: rest, k, v =>
    if k0 = k then (k0, v) :: rest else (k0, v0) :: dictInsert rest k v

/-- Line with the text after a # removed and the rest stripped, as in the
first statement of the _load_simple_yaml loop. -/
def stripComment (raw_line : String) : String :=
  ((raw_line.splitOn "#").headD "").trim

/-- Body of the _load_simple_yaml loop for one raw line. -/
def yamlStep (data : List (String × ℤ)) (raw_line : String) :
    Except YamlError (List (String × ℤ)) :=
  if stripComment raw_line = "" then Except.ok data
  else
    match (stripComment raw_line).splitOn ":" with
    | [] => Except.error (YamlError.invalidLine raw_line)
    | [_] => Except.error (YamlError.invalidLine raw_line)
    | keyPart :: valueParts =>
      if (String.intercalate ":" valueParts).trim = "" then
        Except.error (YamlError.missingValue keyPart.trim)
      else
        match pyInt ((String.intercalate ":" valueParts).trim) with
        | none => Except.error (YamlError.nonIntegerValue keyPart.trim)
        | some n => Except.ok (dictInsert data keyPart.trim n)

/-- The line loop of _load_simple_yaml: stop at the first bad line. -/
def load_simple_yaml_go : List String → List (String × ℤ) → Except YamlError (List (String × ℤ))
  | [], data => Except.ok data
  | raw :: rest, data =>
    match yamlStep data raw with
    | Except.ok d => load_simple_yaml_go rest d
    | Except.error e => Except.error e

/-- Embedding of simulate.py's _load_simple_yaml over the file's text. -/
def load_simple_yaml (text : String) : Except YamlError (List (String × ℤ)) :=
  load_simple_yaml_go (text.splitOn "\n") []

/-- Spec-side reading of one overlay line: none when the line is blank
after comment stripping or malformed, some (key, parsed integer)
otherwise. -/
def lineParsed (raw_line : String) : Option (String × ℤ) :=
  if stripComment raw_line = "" then none
  else
    match (stripComment raw_line).splitOn ":" with
    | [] => none
    | [_] => none
    | keyPart :: valueParts =>
      if (String.intercalate ":" valueParts).trim = "" then none
      else (pyInt ((String.intercalate ":" valueParts).trim)).map (fun n => (keyPart.trim, n))

/-- Spec-side: the line is blank once text after a # is removed. -/
def overlayLineBlank (raw_line : String) : Bool :=
  stripComment raw_line = ""

/-- Spec-side: the line is acceptable to the overlay parser. -/
def goodOverlayLine (raw_line : String) : Bool :=
  overlayLineBlank raw_line || (lineParsed raw_line).isSome

lemma yamlStep_blank (data : List (String × ℤ)) (raw : String)
    (hb : overlayLineBlank raw = true) : yamlStep data raw = Except.ok data := by
  unfold overlayLineBlank at hb
  simp only [decide_eq_true_eq] at hb
  unfold yamlStep
  rw [if_pos hb]

lemma yamlStep_parsed (data : List (String × ℤ)) (raw : String) (kn : String × ℤ)
    (hp : lineParsed raw = some kn) :
    yamlStep data raw = Except.ok (dictInsert data kn.1 kn.2) := by
  unfold lineParsed at hp
  unfold yamlStep
  by_cases hb : stripComment raw = ""
  · rw [if_pos hb] at hp; cases hp
  · rw [if_neg hb] at hp ⊢
    rcases hsp : (stripComment raw).splitOn ":" with _ | ⟨keyPart, _ | ⟨v0, vrest⟩⟩
    · rw [hsp] at hp; simp at hp
    · rw [hsp] at hp; simp at hp
    · rw [hsp] at hp
      dsimp only at hp ⊢
      by_cases hv : (String.intercalate ":" (v0 :: vrest)).trim = ""
      · rw [if_pos hv] at hp; cases hp
      · rw [if_neg hv] at hp ⊢
        rcases hpi : pyInt ((String.intercalate ":" (v0 :: vrest)).trim) with _ | n
        · rw [hpi] at hp; cases hp
        · rw [hpi] at hp
          dsimp only [Option.map] at hp ⊢
          cases hp
          rfl

lemma yamlStep_bad (data : List (String × ℤ)) (raw : String)
    (hb : overlayLineBlank raw = false) (hp : lineParsed raw = none) :
    ∃ e, yamlStep data raw = Except.error e := by
  unfold overlayLineBlank at hb
  simp only [decide_eq_false_iff_not] at hb
  unfold lineParsed at hp
  unfold yamlStep
  rw [if_neg hb] at hp ⊢
  rcases hsp : (stripComment raw).splitOn ":" with _ | ⟨keyPart, _ | ⟨v0, vrest⟩⟩
  · exact ⟨_, rfl⟩
  · exact ⟨_, rfl⟩
  · rw [hsp] at hp
    dsimp only at hp ⊢
    by_cases hv : (String.intercalate ":" (v0 :: vrest)).trim = ""
    · rw [if_pos hv]; exact ⟨_, rfl⟩
    · rw [if_neg hv] at hp ⊢
      rcases hpi : pyInt ((String.intercalate ":" (v0 :: vrest)).trim) with _ | n
      · exact ⟨_, rfl⟩
      · rw [hpi] at hp; simp at hp

lemma load_simple_yaml_go_isOk (lines : List String) :
    ∀ data, (load_simple_yaml_go lines data).isOk = true ↔
      ∀ raw ∈ lines, goodOverlayLine raw = true := by
  induction lines with
  | nil => intro data; simp [load_simple_yaml_go, Except.isOk, Except.toBool]
  | cons raw rest ih =>
    intro data
    rw [load_simple_yaml_go]
    by_cases hb : overlayLineBlank raw = true
    · rw [yamlStep_blank data raw hb]
      simp only [ih data, List.forall_mem_cons]
      have hg : goodOverlayLine raw = true := by simp [goodOverlayLine, hb]
      simp [hg]
    · rcases hp : lineParsed raw with _ | kn
      · obtain ⟨e, he⟩ := yamlStep_bad data raw (Bool.not_eq_true _ ▸ hb) hp
        rw [he]
        have hg : goodOverlayLine raw = false := by
          simp [goodOverlayLine, hp]
          exact Bool.not_eq_true _ ▸ hb
        simp [Except.isOk, Except.toBool, List.forall_mem_cons, hg]
      · rw [yamlStep_parsed data raw kn hp]
        simp only [ih, List.forall_mem_cons]
        have hg : goodOverlayLine raw = true := by simp [goodOverlayLine, hp]
        simp [hg]

lemma mem_dictInsert {α β : Type} [DecidableEq α] (l : List (α × β)) (k : α) (v : β) :
    ∀ kv ∈ dictInsert l k v, kv = (k, v) ∨ kv ∈ l := by
  induction l with
  | nil => simp [dictInsert]
  | cons hd tl ih =>
    intro kv hkv
    rcases hd with ⟨k0, v0⟩
    rw [dictInsert] at hkv
    split at hkv
    · rename_i hk
      rcases List.mem_cons.mp hkv with rfl | h
      · subst hk; left; rfl
      · right; exact List.mem_cons_of_mem _ h
    · rcases List.mem_cons.mp hkv with rfl | h
      · right; exact List.mem_cons_self _ _
      · rcases ih kv h with h1 | h1
        · left; exact h1
        · right; exact List.mem_cons_of_mem _ h1

lemma load_simple_yaml_go_mem (lines : List String) :
    ∀ data m, load_simple_yaml_go lines data = Except.ok m →
      ∀ kv ∈ m, kv ∈ data ∨ ∃ raw ∈ lines, lineParsed raw = some kv := by
  induction lines with
  | nil =>
    intro data m hm kv hkv
    rw [load_simple_yaml_go] at hm
    cases hm
    exact Or.inl hkv
  | cons raw rest ih =>
    intro data m hm kv hkv
    rw [load_simple_yaml_go] at hm
    by_cases hb : overlayLineBlank raw = true
    · rw [yamlStep_blank data raw hb] at hm
      rcases ih data m hm kv hkv with h | ⟨r, hr, hpr⟩
      · exact Or.inl h
      · exact Or.inr ⟨r, List.mem_cons_of_mem _ hr, hpr⟩
    · rcases hp : lineParsed raw with _ | kn
      · obtain ⟨e, he⟩ := yamlStep_bad data raw (Bool.not_eq_true _ ▸ hb) hp
        rw [he] at hm; cases hm
      · rw [yamlStep_parsed data raw kn hp] at hm
        rcases ih _ m hm kv hkv with h | ⟨r, hr, hpr⟩
        · rcases mem_dictInsert data kn.1 kn.2 kv h with h1 | h1
          · refine Or.inr ⟨raw, List.mem_cons_self _ _, ?_⟩
            rw [hp, h1]
          · exact Or.inl h1
        · exact Or.inr ⟨r, List.mem_cons_of_mem _ hr, hpr⟩

/-- Claim C9: loading the replica overlay succeeds exactly when every
non-blank, non-comment line is a key, a colon and an integer value, and
on success every binding of the returned mapping is the parsed key and
integer of one of the lines. -/
theorem claim_C9 (text : String) :
    ((load_simple_yaml text).isOk = true ↔
      ∀ raw ∈ text.splitOn "\n", goodOverlayLine raw = true) ∧
    (∀ m, load_simple_yaml text = Except.ok m →
      ∀ kv ∈ m, ∃ raw ∈ text.splitOn "\n", lineParsed raw = some kv) := by
  constructor
  · exact load_simple_yaml_go_isOk (text.splitOn "\n") []
  · intro m hm kv hkv
    rcases load_simple_yaml_go_mem (text.splitOn "\n") [] m hm kv hkv with h | h
    · cases h
    · exact h

/-- Witness for claim C9 on a concrete overlay text. -/
theorem claim_C9_witness :
    ∃ raw ∈ ("a: 1\nb: 2 # two" : String).splitOn "\n", lineParsed raw = some ("b", 2) :=
  (claim_C9 "a: 1\nb: 2 # two").2 [("a", 1), ("b", 2)]
    (by with_unfolding_all rfl) ("b", 2) (by decide)

/-! ## Entry point derivation (simulate.py, _derive_entrypoints)

Edges are modelled with optional fields, as dep.get returns None for a
missing key; Python truthiness makes the empty string count as missing. -/

/-- One Jaeger dependency edge as read with dep.get. -/
structure Dep where
  parent : Option String
  child : Option String
deriving DecidableEq

/-- Replace the value stored at the first occurrence of a key (Python
mutates entrypoints[endpoint_key] in place). -/
def updateEntry : List (String × List String) → String → (List String → List String) → List (String × List String)
  | [], _, _ => []
  | (k0, v0) :: rest, k, f =>
    if k0 = k then (k0, f v0) :: rest else (k0, v0) :: updateEntry rest k f

/-- Python dict.setdefault(key, []): keep the dict if the key is present,
else append the key bound to an empty list. -/
def entrySetdefault (m : List (String × List String)) (k : String) : List (String × List String) :=
  if (m.lookup k).isSome then m else m ++ [(k, [])]

/-- Append a service to the endpoint list if it is not already there. -/
def appendIfAbsent (svc : String) (l : List String) : List String :=
  if svc ∈ l then l else l ++ [svc]

/-- Body of the _derive_entrypoints loop for one edge. -/
def deriveStep (m : List (String × List String)) (dep : Dep) : List (String × List String) :=
  match dep.parent, dep.child with
  | some parent, some child =>
    if parent = "" ∨ child = "" then m
    else
      updateEntry
        (updateEntry (entrySetdefault m ("/" ++ parent)) ("/" ++ parent) (appendIfAbsent parent))
        ("/" ++ parent) (appendIfAbsent child)
  | _, _ => m

/-- Embedding of simulate.py's _derive_entrypoints. -/
def derive_entrypoints (dependencies : List Dep) : List (String × List String) :=
  dependencies.foldl deriveStep []

/-- The (parent, child) pair of an edge when both fields are present and
non-empty, none otherwise. -/
def validEdge? (dep : Dep) : Option (String × String) :=
  match dep.parent, dep.child with
  | some parent, some child =>
    if parent = "" ∨ child = "" then none else some (parent, child)
  | _, _ => none

/-- The valid (parent, child) pairs of an edge list, in order. -/
def validEdges (dependencies : List Dep) : List (String × String) :=
  dependencies.filterMap validEdge?

/-- Children of the valid edges rooted at a given parent, in edge order. -/
def childrenOf (edges : List (String × String)) (p : String) : List String :=
  (edges.filter (fun e => e.1 = p)).map (fun e => e.2)

lemma mem_firstOcc (a : String) (l : List String) :
    ∀ seen, a ∈ firstOcc l seen ↔ a ∈ l ∧ a ∉ seen := by
  induction l with
  | nil => intro seen; simp [firstOcc]
  | cons s rest ih =>
    intro seen
    by_cases h : s ∈ seen
    · rw [firstOcc, if_pos h, ih]
      constructor
      · rintro ⟨ha, hna⟩; exact ⟨List.mem_cons_of_mem _ ha, hna⟩
      · rintro ⟨ha, hna⟩
        rcases List.mem_cons.mp ha with rfl | ha
        · exact absurd h hna
        · exact ⟨ha, hna⟩
    · rw [firstOcc, if_neg h]
      constructor
      · intro hmem
        rcases List.mem_cons.mp hmem with rfl | hmem
        · exact ⟨List.mem_cons_self _ _, h⟩
        · rcases (ih (s :: seen)).mp hmem with ⟨ha, hna⟩
          refine ⟨List.mem_cons_of_mem _ ha, fun hs => hna (List.mem_cons_of_mem _ hs)⟩
      · rintro ⟨ha, hna⟩
        rcases List.mem_cons.mp ha with rfl | ha
        · exact List.mem_cons_self _ _
        · by_cases has : a = s
          · subst has; exact List.mem_cons_self _ _
          · refine List.mem_cons_of_mem _ ((ih (s :: seen)).mpr ⟨ha, ?_⟩)
            intro hmem
            rcases List.mem_cons.mp hmem with h1 | h1
            · exact has h1
            · exact hna h1

lemma firstOcc_append_single (c : String) (l : List String) :
    ∀ seen, firstOcc (l ++ [c]) seen =
      firstOcc l seen ++ (if c ∈ seen ∨ c ∈ l then [] else [c]) := by
  induction l with
  | nil =>
    intro seen
    by_cases h : c ∈ seen <;> simp [firstOcc, h]
  | cons s rest ih =>
    intro seen
    by_cases h : s ∈ seen
    · rw [List.cons_append, firstOcc, if_pos h, firstOcc, if_pos h, ih]
      by_cases hc : c ∈ seen
      · simp [hc]
      · by_cases hcs : c = s
        · subst hcs
          simp [h, hc]
        · simp [hc, hcs]
    · rw [List.cons_append, firstOcc, if_neg h, firstOcc, if_neg h, ih]
      by_cases hc : c ∈ s :: seen
      · rcases List.mem_cons.mp hc with rfl | hc
        · simp [h]
        · simp [hc]
      · have hc1 : c ∉ seen := fun hx => hc (List.mem_cons_of_mem _ hx)
        have hc2 : c ≠ s := fun hx => hc (hx ▸ List.mem_cons_self _ _)
        simp [hc, hc1, hc2]

lemma lookup_cons_self {β : Type} (k : String) (v : β) (l : List (String × β)) :
    ((k, v) :: l).lookup k = some v := by
  simp [List.lookup]

lemma lookup_cons_ne {β : Type} (k0 : String) (v : β) (l : List (String × β)) (k : String)
    (h : ¬ k = k0) : ((k0, v) :: l).lookup k = l.lookup k := by
  simp [List.lookup, beq_eq_false_iff_ne.mpr h]

lemma lookup_append_pairs {β : Type} (l1 l2 : List (String × β)) (a : String) :
    (l1 ++ l2).lookup a =
      match l1.lookup a with
      | some v => some v
      | none => l2.lookup a := by
  induction l1 with
  | nil => simp [List.lookup]
  | cons hd tl ih =>
    rcases hd with ⟨k, b⟩
    by_cases h : a = k
    · subst h
      rw [List.cons_append, lookup_cons_self, lookup_cons_self]
    · rw [List.cons_append, lookup_cons_ne k b (tl ++ l2) a h,
          lookup_cons_ne k b tl a h, ih]

lemma lookup_updateEntry (m : List (String × List String)) (k k' : String)
    (f : List String → List String) :
    (updateEntry m k f).lookup k' =
      if k' = k then (m.lookup k').map f else m.lookup k' := by
  induction m with
  | nil => by_cases h : k' = k <;> simp [updateEntry, List.lookup, h]
  | cons hd tl ih =>
    rcases hd with ⟨k0, v0⟩
    rw [updateEntry]
    by_cases h0 : k0 = k
    · subst h0
      rw [if_pos rfl]
      by_cases h' : k' = k0
      · subst h'
        rw [lookup_cons_self, lookup_cons_self, if_pos rfl]
        rfl
      · rw [lookup_cons_ne _ _ _ _ h', lookup_cons_ne _ _ _ _ h', if_neg h']
    · rw [if_neg h0]
      by_cases h' : k' = k0
      · subst h'
        rw [lookup_cons_self, if_neg h0, lookup_cons_self]
      · rw [lookup_cons_ne _ _ _ _ h', lookup_cons_ne _ _ _ _ h', ih]

lemma lookup_entrySetdefault (m : List (String × List String)) (k k' : String) :
    (entrySetdefault m k).lookup k' =
      if k' = k then some ((m.lookup k).getD []) else m.lookup k' := by
  unfold entrySetdefault
  rcases hm : m.lookup k with _ | v
  · rw [show (none : Option (List String)).isSome = false from rfl]
    simp only [Bool.false_eq_true, if_false]
    rw [lookup_append_pairs]
    by_cases h : k' = k
    · subst h
      rw [hm, lookup_cons_self, if_pos rfl]
      rfl
    · rw [if_neg h]
      rcases h2 : m.lookup k' with _ | w
      · dsimp only
        rw [lookup_cons_ne _ _ _ _ h]
        rfl
      · rfl
  · rw [show (some v).isSome = true from rfl]
    simp only [if_true]
    by_cases h : k' = k
    · subst h
      rw [if_pos rfl, hm]
      rfl
    · rw [if_neg h]

lemma appendIfAbsent_mem (svc : String) (l : List String) (h : svc ∈ l) :
    appendIfAbsent svc l = l := by
  unfold appendIfAbsent
  rw [if_pos h]

lemma appendIfAbsent_not_mem (svc : String) (l : List String) (h : svc ∉ l) :
    appendIfAbsent svc l = l ++ [svc] := by
  unfold appendIfAbsent
  rw [if_neg h]

lemma slash_inj (q p : String) : ("/" ++ q : String) = "/" ++ p ↔ q = p := by
  constructor
  · intro h
    have h2 : ("/" ++ q : String).data = ("/" ++ p : String).data := by rw [h]
    rw [String.data_append, String.data_append] at h2
    exact congrArg String.mk (List.append_cancel_left h2)
  · intro h; rw [h]

lemma childrenOf_append_single (done : List (String × String)) (p c q : String) :
    childrenOf (done ++ [(p, c)]) q =
      childrenOf done q ++ (if p = q then [c] else []) := by
  unfold childrenOf
  rw [List.filter_append, List.map_append]
  by_cases h : p = q <;> simp [h]

lemma inv_deriveStep (m : List (String × List String)) (done : List (String × String))
    (p c : String)
    (h : ∀ q, m.lookup ("/" ++ q) =
      (if childrenOf done q = [] then none
       else some (firstOcc (q :: childrenOf done q) []))) :
    ∀ q, (updateEntry
        (updateEntry (entrySetdefault m ("/" ++ p)) ("/" ++ p) (appendIfAbsent p))
        ("/" ++ p) (appendIfAbsent c)).lookup ("/" ++ q) =
      (if childrenOf (done ++ [(p, c)]) q = [] then none
       else some (firstOcc (q :: childrenOf (done ++ [(p, c)]) q) [])) := by
  intro q
  rw [lookup_updateEntry, lookup_updateEntry, lookup_entrySetdefault,
      childrenOf_append_single]
  by_cases hqp : q = p
  · subst hqp
    rw [if_pos rfl, if_pos rfl, if_pos rfl, if_pos rfl, h q]
    rcases hcs : childrenOf done q with _ | ⟨c0, cs⟩
    · rw [if_pos rfl]
      by_cases hcq : c = q
      · subst hcq
        simp [appendIfAbsent, firstOcc]
      · simp [appendIfAbsent, firstOcc, hcq, Ne.symm hcq]
    · rw [if_neg (by simp)]
      have hne2 : (c0 :: cs) ++ [c] ≠ [] := by simp
      rw [if_neg hne2]
      dsimp only [Option.map, Option.getD]
      congr 1
      have hqmem : q ∈ firstOcc (q :: (c0 :: cs)) [] := by
        rw [mem_firstOcc]
        exact ⟨List.mem_cons_self _ _, by simp⟩
      rw [appendIfAbsent_mem q _ hqmem]
      rw [show q :: ((c0 :: cs) ++ [c]) = (q :: (c0 :: cs)) ++ [c] by simp,
          firstOcc_append_single c (q :: (c0 :: cs)) []]
      by_cases hcmem : c ∈ q :: (c0 :: cs)
      · rw [appendIfAbsent_mem c _ ((mem_firstOcc c _ []).mpr ⟨hcmem, by simp⟩)]
        simp [hcmem]
      · rw [appendIfAbsent_not_mem c _ (fun hx => hcmem ((mem_firstOcc c _ []).mp hx).1)]
        simp [hcmem]
  · have hkey : ¬("/" ++ q : String) = "/" ++ p := fun hx => hqp ((slash_inj q p).mp hx)
    have hpq : ¬(p = q) := fun hx => hqp hx.symm
    rw [if_neg hkey, if_neg hkey, if_neg hkey, if_neg hpq, List.append_nil]
    exact h q

lemma deriveStep_invalid (m : List (String × List String)) (dep : Dep)
    (hv : validEdge? dep = none) : deriveStep m dep = m := by
  rcases dep with ⟨pOpt, cOpt⟩
  rcases pOpt with _ | par
  · rcases cOpt with _ | ch <;> rfl
  · rcases cOpt with _ | ch
    · rfl
    · unfold validEdge? at hv
      dsimp only at hv
      unfold deriveStep
      dsimp only
      by_cases hbad : par = "" ∨ ch = ""
      · rw [if_pos hbad]
      · rw [if_neg hbad] at hv
        cases hv

lemma deriveStep_valid (m : List (String × List String)) (dep : Dep) (p c : String)
    (hv : validEdge? dep = some (p, c)) :
    deriveStep m dep =
      updateEntry
        (updateEntry (entrySetdefault m ("/" ++ p)) ("/" ++ p) (appendIfAbsent p))
        ("/" ++ p) (appendIfAbsent c) := by
  rcases dep with ⟨pOpt, cOpt⟩
  rcases pOpt with _ | par
  · rcases cOpt with _ | ch <;> cases hv
  · rcases cOpt with _ | ch
    · cases hv
    · unfold validEdge? at hv
      dsimp only at hv
      unfold deriveStep
      dsimp only
      by_cases hbad : par = "" ∨ ch = ""
      · rw [if_pos hbad] at hv
        cases hv
      · rw [if_neg hbad] at hv
        rw [if_neg hbad]
        cases hv
        rfl

lemma derive_fold (deps : List Dep) :
    ∀ (done : List (String × String)) (m : List (String × List String)),
      (∀ q, m.lookup ("/" ++ q) =
        (if childrenOf done q = [] then none
         else some (firstOcc (q :: childrenOf done q) []))) →
      ∀ q, (deps.foldl deriveStep m).lookup ("/" ++ q) =
        (if childrenOf (done ++ validEdges deps) q = [] then none
         else some (firstOcc (q :: childrenOf (done ++ validEdges deps) q) [])) := by
  induction deps with
  | nil => intro done m h q; simpa [validEdges] using h q
  | cons dep rest ih =>
    intro done m h q
    rcases hv : validEdge? dep with _ | ⟨p, c⟩
    · have hval : validEdges (dep :: rest) = validEdges rest := by
        simp [validEdges, List.filterMap_cons, hv]
      rw [List.foldl_cons, deriveStep_invalid m dep hv, hval]
      exact ih done m h q
    · have hval : validEdges (dep :: rest) = (p, c) :: validEdges rest := by
        simp [validEdges, List.filterMap_cons, hv]
      rw [List.foldl_cons, deriveStep_valid m dep p c hv, hval]
      have h2 := inv_deriveStep m done p c h
      have h3 := ih (done ++ [(p, c)]) _ h2 q
      rwa [List.append_assoc, List.singleton_append] at h3

/-! ## Service reliability map (simulate.py, run_simulation loop) -/

/-- Python dict.setdefault(key, value) for the service_reliability dict:
keep the dict when the key is present, else append the binding. -/
def setdefaultSR (m : List (String × ℚ)) (k : String) (v : ℚ) : List (String × ℚ) :=
  if (m.lookup k).isSome then m else m ++ [(k, v)]

/-- One optional edge field processed by the run_simulation loop: when
the field is present and truthy, setdefault its reliability. -/
def srField (replicas : List (String × ℤ)) (pfail : ℚ) (m : List (String × ℚ)) :
    Option String → List (String × ℚ)
  | some s =>
    if s = "" then m
    else setdefaultSR m s (service_reliability pfail ((replicas.lookup s).getD 1))
  | none => m

/-- Body of the run_simulation service-reliability loop for one edge:
parent first, then child. -/
def srStep (replicas : List (String × ℤ)) (pfail : ℚ) (m : List (String × ℚ)) (dep : Dep) :
    List (String × ℚ) :=
  srField replicas pfail (srField replicas pfail m dep.parent) dep.child

/-- The service_reliability dict built by run_simulation: one pass over
the edges, then one pass over the replica overlay for services absent
from the edge list. -/
def build_service_reliability (dependencies : List Dep) (replicas : List (String × ℤ))
    (pfail : ℚ) : List (String × ℚ) :=
  replicas.foldl (fun m kv => setdefaultSR m kv.1 (service_reliability pfail kv.2))
    (dependencies.foldl (srStep replicas pfail) [])

lemma keys_setdefaultSR (m : List (String × ℚ)) (k0 : String) (v : ℚ) :
    ∀ k ∈ (setdefaultSR m k0 v).map Prod.fst, k ∈ m.map Prod.fst ∨ k = k0 := by
  intro k hk
  unfold setdefaultSR at hk
  split at hk
  · exact Or.inl hk
  · rw [List.map_append] at hk
    rcases List.mem_append.mp hk with h | h
    · exact Or.inl h
    · simp at h
      exact Or.inr h

lemma keys_srField (replicas : List (String × ℤ)) (pfail : ℚ) (m : List (String × ℚ))
    (f : Option String) :
    ∀ k ∈ ((srField replicas pfail m f).map Prod.fst),
      k ∈ m.map Prod.fst ∨ (f = some k ∧ k ≠ "") := by
  intro k hk
  rcases f with _ | s
  · exact Or.inl hk
  · simp only [srField] at hk
    by_cases hs : s = ""
    · rw [if_pos hs] at hk
      exact Or.inl hk
    · rw [if_neg hs] at hk
      rcases keys_setdefaultSR m s _ k hk with h | h
      · exact Or.inl h
      · subst h
        exact Or.inr ⟨rfl, hs⟩

lemma keys_foldl_srStep (replicas : List (String × ℤ)) (pfail : ℚ) (deps : List Dep) :
    ∀ m, ∀ k ∈ ((deps.foldl (srStep replicas pfail) m).map Prod.fst),
      k ∈ m.map Prod.fst ∨
        ∃ dep ∈ deps, (dep.parent = some k ∨ dep.child = some k) ∧ k ≠ "" := by
  induction deps with
  | nil => intro m k hk; exact Or.inl hk
  | cons dep rest ih =>
    intro m k hk
    rw [List.foldl_cons] at hk
    rcases ih (srStep replicas pfail m dep) k hk with h | ⟨d, hd, hf, hne⟩
    · unfold srStep at h
      rcases keys_srField replicas pfail _ dep.child k h with h2 | ⟨hc, hne⟩
      · rcases keys_srField replicas pfail m dep.parent k h2 with h3 | ⟨hp, hne⟩
        · exact Or.inl h3
        · exact Or.inr ⟨dep, List.mem_cons_self _ _, Or.inl hp, hne⟩
      · exact Or.inr ⟨dep, List.mem_cons_self _ _, Or.inr hc, hne⟩
    · exact Or.inr ⟨d, List.mem_cons_of_mem _ hd, hf, hne⟩

lemma keys_foldl_replicas (pfail : ℚ) (rl : List (String × ℤ)) :
    ∀ m, ∀ k ∈ ((rl.foldl (fun m kv => setdefaultSR m kv.1 (service_reliability pfail kv.2)) m).map Prod.fst),
      k ∈ m.map Prod.fst ∨ ∃ r ∈ rl, r.1 = k := by
  induction rl with
  | nil => intro m k hk; exact Or.inl hk
  | cons kv rest ih =>
    intro m k hk
    rw [List.foldl_cons] at hk
    rcases ih _ k hk with h | ⟨r, hr, hre⟩
    · rcases keys_setdefaultSR m kv.1 _ k h with h2 | h2
      · exact Or.inl h2
      · exact Or.inr ⟨kv, List.mem_cons_self _ _, h2.symm⟩
    · exact Or.inr ⟨r, List.mem_cons_of_mem _ hr, hre⟩

/-! ## Theorems for the reliability model claims -/

/-- Claim C2: service_reliability agrees with the spec formula
clamp(1 - clamp(pfail,0,1)^max(replicas,1), 0, 1) for every pfail and
replica count, and for every replica count n >= 1 it maps pfail = 0 to 1
and pfail = 1 to 0. -/
theorem claim_C2 (p : ℚ) (r : ℤ) (n : ℤ) (hn : 1 ≤ n) :
    service_reliability p r = serviceReliabilitySpec p r ∧
    service_reliability 0 n = 1 ∧ service_reliability 1 n = 0 := by
  refine ⟨?_, ?_, ?_⟩
  · simp [service_reliability, serviceReliabilitySpec, max_comm 1 r]
  · have hpos : (max 1 n).toNat ≠ 0 := by
      have : (1 : ℤ) ≤ max 1 n := le_max_left 1 n
      omega
    simp [service_reliability, zero_pow hpos]
  · simp [service_reliability]

/-- Witness for claim C2 at concrete inputs. -/
theorem claim_C2_witness :
    service_reliability (1/2) (-4) = serviceReliabilitySpec (1/2) (-4) ∧
    service_reliability 0 3 = 1 ∧ service_reliability 1 3 = 0 :=
  claim_C2 (1/2) (-4) 3 (by decide)

/-- Claim C7: service_reliability is non-increasing in pfail and
non-decreasing in the replica count. -/
theorem claim_C7 (p p1 p2 : ℚ) (n n1 n2 : ℤ) (hp : p1 ≤ p2) (hn : n1 ≤ n2) :
    service_reliability p2 n ≤ service_reliability p1 n ∧
    service_reliability p n1 ≤ service_reliability p n2 := by
  constructor
  · have h0 : (0 : ℚ) ≤ max 0 (min 1 p1) := le_max_left 0 _
    have hmono : max 0 (min 1 p1) ≤ max 0 (min 1 p2) :=
      max_le_max le_rfl (min_le_min le_rfl hp)
    have hpow : (max 0 (min 1 p1)) ^ (max 1 n).toNat ≤ (max 0 (min 1 p2)) ^ (max 1 n).toNat :=
      pow_le_pow_left₀ h0 hmono _
    exact max_le_max le_rfl (min_le_min le_rfl (by linarith))
  · have h0 : (0 : ℚ) ≤ max 0 (min 1 p) := le_max_left 0 _
    have h1 : max 0 (min 1 p) ≤ 1 := by
      apply max_le (by norm_num) (min_le_left 1 p)
    have hle : (max 1 n1).toNat ≤ (max 1 n2).toNat :=
      Int.toNat_le_toNat (max_le_max le_rfl hn)
    have hpow : (max 0 (min 1 p)) ^ (max 1 n2).toNat ≤ (max 0 (min 1 p)) ^ (max 1 n1).toNat :=
      pow_le_pow_of_le_one h0 h1 hle
    exact max_le_max le_rfl (min_le_min le_rfl (by linarith))

/-- Witness for claim C7 at concrete inputs. -/
theorem claim_C7_witness :
    service_reliability (1/2) 2 ≤ service_reliability (1/3) 2 ∧
    service_reliability (1/2) 1 ≤ service_reliability (1/2) 3 :=
  claim_C7 (1/2) (1/3) (1/2) 2 1 3 (by with_unfolding_all decide) (by decide)

/-- Claim C4: path_reliability multiplies each distinct service's
looked-up reliability exactly once (first occurrence only), defaulting to
1 for services absent from the map, and clamps the product to [0,1];
consequently a duplicated entry never changes the result. -/
theorem claim_C4 (l : List String) (m m2 : List (String × ℚ)) (A B : String) :
    path_reliability l m =
      max 0 (min 1 (((firstOcc l []).map (fun s => (m.lookup s).getD 1)).prod)) ∧
    path_reliability [A, B, A] m2 = path_reliability [A, B] m2 := by
  constructor
  · simp [path_reliability, path_reliability_go_eq]
  · have hfo : firstOcc [A, B, A] [] = firstOcc [A, B] [] := by
      by_cases hBA : B = A
      · simp [firstOcc, hBA]
      · simp [firstOcc, hBA, Ne.symm hBA]
    simp [path_reliability, path_reliability_go_eq, hfo]

/-- Claim C6: with no explicit entrypoint map, the derived entrypoints
bind, for each parent p of a valid edge, the key "/" ++ p to p followed
by the first occurrences of its children in edge order (services already
present are not appended again); parents with no valid edge get no
endpoint, and a graph with zero edges yields zero endpoints. -/
theorem claim_C6 (deps : List Dep) (p : String) :
    derive_entrypoints ([] : List Dep) = [] ∧
    (derive_entrypoints deps).lookup ("/" ++ p) =
      (if childrenOf (validEdges deps) p = [] then none
       else some (firstOcc (p :: childrenOf (validEdges deps) p) [])) := by
  constructor
  · rfl
  · have h0 : ∀ q, ([] : List (String × List String)).lookup ("/" ++ q) =
        (if childrenOf ([] : List (String × String)) q = [] then none
         else some (firstOcc (q :: childrenOf [] q) [])) := by
      intro q
      simp [childrenOf, List.lookup]
    have h1 := derive_fold deps [] [] h0 p
    simpa [derive_entrypoints] using h1

/-- Claim C10: an edge with a missing or empty parent or child field is
skipped by entrypoint derivation, and a missing or empty field never
creates an entry of the service reliability map (every key of that map
is a present, non-empty parent or child of some edge, or a replica
overlay key); both functions are total, so no error is raised. -/
theorem claim_C10 (l1 l2 deps : List Dep) (bad : Dep) (replicas : List (String × ℤ))
    (pfail : ℚ)
    (hbad : bad.parent = none ∨ bad.parent = some "" ∨
      bad.child = none ∨ bad.child = some "") :
    derive_entrypoints (l1 ++ bad :: l2) = derive_entrypoints (l1 ++ l2) ∧
    (∀ k ∈ (build_service_reliability deps replicas pfail).map Prod.fst,
      ((∃ dep ∈ deps, dep.parent = some k ∨ dep.child = some k) ∧ k ≠ "") ∨
        ∃ r ∈ replicas, r.1 = k) := by
  constructor
  · have hv : validEdge? bad = none := by
      rcases bad with ⟨pOpt, cOpt⟩
      unfold validEdge?
      rcases pOpt with _ | par <;> rcases cOpt with _ | ch
      · rfl
      · rfl
      · rfl
      · dsimp only at hbad ⊢
        have hor : par = "" ∨ ch = "" := by
          rcases hbad with h | h | h | h
          · cases h
          · exact Or.inl (Option.some.inj h)
          · cases h
          · exact Or.inr (Option.some.inj h)
        rw [if_pos hor]
    unfold derive_entrypoints
    rw [List.foldl_append, List.foldl_append, List.foldl_cons,
        deriveStep_invalid _ bad hv]
  · intro k hk
    unfold build_service_reliability at hk
    rcases keys_foldl_replicas pfail replicas _ k hk with h | h
    · rcases keys_foldl_srStep replicas pfail deps [] k h with h2 | ⟨dep, hdep, hf, hne⟩
      · simp at h2
      · exact Or.inl ⟨⟨dep, hdep, hf⟩, hne⟩
    · exact Or.inr h

/-- Witness for claim C10 with a concrete edge missing its child. -/
theorem claim_C10_witness :
    derive_entrypoints ([⟨some "A", some "B"⟩] ++ (⟨some "A", none⟩ : Dep) :: []) =
      derive_entrypoints ([⟨some "A", some "B"⟩] ++ []) ∧
    (∀ k ∈ (build_service_reliability [⟨some "A", none⟩] [("B", 2)] 0).map Prod.fst,
      ((∃ dep ∈ [(⟨some "A", none⟩ : Dep)], dep.parent = some k ∨ dep.child = some k) ∧
        k ≠ "") ∨ ∃ r ∈ [("B", (2 : ℤ))], r.1 = k) :=
  claim_C10 [⟨some "A", some "B"⟩] [] [⟨some "A", none⟩] ⟨some "A", none⟩ [("B", 2)] 0
    (by decide)

/-! ## Simulation runner (simulate.py, run_simulation)

The filesystem is abstracted: the graph argument is the structure
returned by _load_graph, the replica overlay is passed as the file's
text together with its file name (used for the mode tag), and the
returned payload stands for the written JSON document.  The timestamp
field is omitted (it reads the wall clock) and metadata is a pass-through
ignored by every claim. -/

/-- Error cases of run_simulation that the embedding can reach. -/
inductive SimError where
  | pfailNegative
  | yaml (e : YamlError)
deriving DecidableEq

/-- Normalized graph payload as produced by _load_graph. -/
structure GraphData where
  dependencies : List Dep
  entrypoints : List (String × List String)
deriving DecidableEq

/-- Index of the last dot of a character list, if any. -/
def lastDotIndex (cs : List Char) : Option Nat :=
  ((cs.enum.filter (fun p => p.2 = '.')).map (fun p => p.1)).getLast?

/-- Model of pathlib's Path(s).stem: the final path component without its
suffix; a dot at the start or the very end of the name is not a suffix. -/
def pathStem (s : String) : String :=
  let name := (s.splitOn "/").getLastD ""
  match lastDotIndex name.data with
  | some i => if 0 < i ∧ i < name.data.length - 1 then String.mk (name.data.take i) else name
  | none => name

/-- Stable insertion of one element: it goes after every element that the
strict order puts before it. -/
def insertSorted {α : Type} (lt : α → α → Bool) (a : α) : List α → List α
  | [] => [a]
  | b :: rest => if lt b a then b :: insertSorted lt a rest else a :: b :: rest

/-- Model of Python's stable sorted(). -/
def sortOn {α : Type} (lt : α → α → Bool) (l : List α) : List α :=
  l.foldr (insertSorted lt) []

/-- Python min(values, default=1.0). -/
def minD (l : List ℚ) : ℚ :=
  match l with
  | [] => 1
  | x :: rest => rest.foldl min x

/-- Python max(values, default=1.0). -/
def maxD (l : List ℚ) : ℚ :=
  match l with
  | [] => 1
  | x :: rest => rest.foldl max x

/-- One entry of the endpoints map of a simulation result. -/
structure EndpointResult where
  services : List String
  reliability : ℚ
  service_reliability : List (String × ℚ)
deriving DecidableEq

/-- Summary block of a simulation result (timestamp omitted). -/
structure SimSummary where
  pfail : ℚ
  replicas_file : String
  min_reliability : ℚ
  max_reliability : ℚ
  entrypoint_count : Nat
  mode : String
deriving DecidableEq

/-- The simulation result document written by run_simulation. -/
structure SimPayload where
  summary : SimSummary
  service_reliability : List (String × ℚ)
  endpoints : List (String × EndpointResult)
deriving DecidableEq

/-- Embedding of simulate.py's run_simulation: reject a negative pfail
first, resolve entrypoints (deriving them when the graph has none), load
the replica overlay, build the per-service reliability map, and assemble
the per-endpoint results in sorted endpoint order. -/
def run_simulation (graph : GraphData) (replicasText replicasName : String) (pfail : ℚ) :
    Except SimError SimPayload :=
  if pfail < 0 then Except.error SimError.pfailNegative
  else
    let entrypoints :=
      if graph.entrypoints.isEmpty then derive_entrypoints graph.dependencies
      else graph.entrypoints
    match load_simple_yaml replicasText with
    | Except.error e => Except.error (SimError.yaml e)
    | Except.ok replicas =>
      let sr := build_service_reliability graph.dependencies replicas pfail
      let endpoint_results :=
        (sortOn (fun a b => decide (a.1 < b.1)) entrypoints).map (fun ep =>
          (ep.1,
            ({ services := ep.2,
               reliability := path_reliability ep.2 sr,
               service_reliability := ep.2.map (fun svc => (svc, (sr.lookup svc).getD 1)) } :
              EndpointResult)))
      let mode := if ((pathStem replicasName).toLower).startsWith "norepl" then "norepl" else "repl"
      Except.ok
        { summary :=
            { pfail := pfail,
              replicas_file := replicasName,
              min_reliability := minD (endpoint_results.map (fun ep => ep.2.reliability)),
              max_reliability := maxD (endpoint_results.map (fun ep => ep.2.reliability)),
              entrypoint_count := endpoint_results.length,
              mode := mode },
          service_reliability := sr,
          endpoints := endpoint_results }

/-- Sample graph used by concrete witnesses. -/
def sampleGraph : GraphData :=
  { dependencies := [⟨some "A", some "B"⟩], entrypoints := [] }

/-- Claim C8: run_simulation fails with the pfail validation error
exactly when pfail is negative, and in that case the result does not
depend on the graph or the replica overlay at all (nothing is read or
computed); any pfail at or above zero, including values above one, never
produces that validation error. -/
theorem claim_C8 (g g2 : GraphData) (t t2 n n2 : String) (pfail : ℚ) :
    (run_simulation g t n pfail = Except.error SimError.pfailNegative ↔ pfail < 0) ∧
    (pfail < 0 → run_simulation g t n pfail = run_simulation g2 t2 n2 pfail) := by
  constructor
  · constructor
    · intro h
      by_contra hp
      rw [run_simulation, if_neg hp] at h
      dsimp only at h
      rcases hy : load_simple_yaml t with e | r
      · rw [hy] at h
        simp at h
      · rw [hy] at h
        simp at h
    · intro hp
      rw [run_simulation, if_pos hp]
  · intro hp
    rw [run_simulation, run_simulation, if_pos hp, if_pos hp]

/-- Witness for claim C8: at pfail = -1 the result ignores every other
input. -/
theorem claim_C8_witness :
    run_simulation sampleGraph "a: 1" "norepl.yaml" (-1) =
      run_simulation { dependencies := [], entrypoints := [] } "not yaml" "x" (-1) :=
  (claim_C8 sampleGraph { dependencies := [], entrypoints := [] } "a: 1" "not yaml"
    "norepl.yaml" "x" (-1)).2 (by with_unfolding_all decide)

/-! ## Gate evaluator (gate.py)

A result document is modelled by the fields gate.py reads: an optional
summary with an optional pfail value (a JSON number or null; Python's
float() raises on null), an optional mode string, an optional
replicas_file string, and an endpoints map whose entries carry an
optional reliability.  A directory is a list of (filename, document)
pairs; sorted(directory.glob(...)) becomes a stable sort by filename.
Numeric rendering in reason strings is abstracted by fmtQ, which prints
the exact rational instead of Python's fixed-point formatting; no claim
depends on the rendering of numbers. -/

/-- JSON value found under summary.pfail. -/
inductive JVal where
  | jnum (q : ℚ)
  | jnull
deriving DecidableEq

/-- Python float() on a summary.pfail value: null cannot be converted
and raises. -/
def pyFloat : JVal → Option ℚ
  | JVal.jnum q => some q
  | JVal.jnull => none

/-- Summary block of a result document as read by gate.py. -/
structure DocSummary where
  pfail : Option JVal
  mode : Option String
  replicas_file : Option String
deriving DecidableEq

/-- A result document as read by gate.py. -/
structure Doc where
  summary : Option DocSummary
  endpoints : List (String × Option ℚ)
deriving DecidableEq

/-- The TypeError site of _load_results: float(summary.get("pfail"))
applied to a non-numeric value. -/
inductive LoadError where
  | pfailNotNumeric (filename : String)
deriving DecidableEq

/-- Lookup for insertion-ordered association lists, by decidable
equality. -/
def dictLookup {α β : Type} [DecidableEq α] : List (α × β) → α → Option β
  | [], _ => none
  | (k0, v) :: rest, k => if k0 = k then some v else dictLookup rest k

/-- The mode component of the grouping key: summary.mode when truthy,
else the stem of summary.replicas_file, else the stem of the document's
own filename; lower-cased. -/
def modeKey (filename : String) (s : DocSummary) : String :=
  let m0 := match s.mode with
    | some m => if m = "" then none else some m
    | none => none
  match m0 with
  | some m => m.toLower
  | none =>
    let stem1 := pathStem ((s.replicas_file).getD "")
    (if stem1 = "" then pathStem filename else stem1).toLower

/-- Body of the _load_results loop for one file: skip a document without
a summary dict or without a pfail key, raise when the pfail value cannot
be converted by float(), otherwise store the document under its
(pfail, mode) key, overwriting any earlier document with that key. -/
def loadStep (acc : List ((ℚ × String) × Doc)) (fd : String × Doc) :
    Except LoadError (List ((ℚ × String) × Doc)) :=
  match fd.2.summary with
  | none => Except.ok acc
  | some s =>
    match s.pfail with
    | none => Except.ok acc
    | some v =>
      match pyFloat v with
      | none => Except.error (LoadError.pfailNotNumeric fd.1)
      | some pf => Except.ok (dictInsert acc (pf, modeKey fd.1 s) fd.2)

/-- The file loop of _load_results. -/
def load_results_go :
    List (String × Doc) → List ((ℚ × String) × Doc) →
      Except LoadError (List ((ℚ × String) × Doc))
  | [], acc => Except.ok acc
  | fd :: rest, acc =>
    match loadStep acc fd with
    | Except.ok acc2 => load_results_go rest acc2
    | Except.error e => Except.error e

/-- Embedding of gate.py's _load_results: scan the documents in sorted
filename order and fold them into the payload map. -/
def load_results (docs : List (String × Doc)) :
    Except LoadError (List ((ℚ × String) × Doc)) :=
  load_results_go (sortOn (fun a b => decide (a.1 < b.1)) docs) []

/-- The (pfail, mode) key a document would be stored under, none when
_load_results skips or rejects it. -/
def docKey (fd : String × Doc) : Option (ℚ × String) :=
  match fd.2.summary with
  | none => none
  | some s =>
    match s.pfail with
    | none => none
    | some v =>
      match pyFloat v with
      | none => none
      | some pf => some (pf, modeKey fd.1 s)

/-- Whether _load_results can process the document without raising:
either it is skipped or its pfail converts. -/
def docPfailConvertible (fd : String × Doc) : Bool :=
  match fd.2.summary with
  | none => true
  | some s =>
    match s.pfail with
    | none => true
    | some v => (pyFloat v).isSome

/-- Python's selected.setdefault(endpoint, []).append(entry). -/
def selectAppend (sel : List (String × List (ℚ × ℚ))) (ep : String) (e : ℚ × ℚ) :
    List (String × List (ℚ × ℚ)) :=
  match sel with
  | [] => [(ep, [e])]
  | (k, v) :: rest =>
    if k = ep then (k, v ++ [e]) :: rest else (k, v) :: selectAppend rest ep e

/-- Embedding of gate.py's _select_endpoints: restrict to documents of
the requested mode, restrict endpoints to the trimmed non-empty filters
when any are given, and append each (pfail, reliability) pair to its
endpoint's series. -/
def select_endpoints (payloads : List ((ℚ × String) × Doc)) (filters : List String)
    (results_mode : Option String) : List (String × List (ℚ × ℚ)) :=
  let normalized_filters := (filters.map (fun f => f.trim)).filter (fun f => f ≠ "")
  let normalized_mode := match results_mode with
    | some m => if m = "" then none else some m.toLower
    | none => none
  payloads.foldl (fun sel kv =>
    if (match normalized_mode with
        | some nm => decide (kv.1.2 ≠ nm)
        | none => false) then sel
    else
      kv.2.endpoints.foldl (fun sel2 epd =>
        if normalized_filters ≠ [] ∧ epd.1 ∉ normalized_filters then sel2
        else selectAppend sel2 epd.1 (kv.1.1, epd.2.getD 1)) sel) []

/-- Reason rendering for rationals, standing in for Python's numeric
formatting. -/
def fmtQ (q : ℚ) : String := toString q.num ++ "/" ++ toString q.den

/-- Gate verdict, reason and (sorted) per-endpoint series. -/
structure GateResult where
  passed : Bool
  reason : String
  scores : List (String × List (ℚ × ℚ))
deriving DecidableEq

/-- The fail-open reason used when nothing was selected. -/
def skipReason (results_mode : Option String) : String :=
  match results_mode with
  | some rm =>
    if rm = "" then "No endpoints matched the filters; gate skipped"
    else "No endpoints matched the filters for mode '" ++ rm ++ "'; gate skipped"
  | none => "No endpoints matched the filters; gate skipped"

/-- Python min(reliability for _, reliability in entries) for a nonempty
series; the empty case is unreachable in evaluate_gate and defaults
to 1. -/
def seriesMin : List (ℚ × ℚ) → ℚ
  | [] => 1
  | e :: rest => rest.foldl (fun acc p => min acc p.2) e.2

/-- Python min(entries, key=pair[1]): the first entry with minimal
reliability; the empty case is unreachable. -/
def minBySnd : List (ℚ × ℚ) → ℚ × ℚ
  | [] => (0, 0)
  | e :: rest => rest.foldl (fun acc p => if p.2 < acc.2 then p else acc) e

/-- entries.sort(key=pair[0]): stable sort of a series by pfail. -/
def sortScores (scores : List (String × List (ℚ × ℚ))) :
    List (String × List (ℚ × ℚ)) :=
  scores.map (fun p => (p.1, sortOn (fun a b => decide (a.1 < b.1)) p.2))

/-- The per-endpoint aggregate scores (minimum over the sorted series),
in endpoint order. -/
def aggregateValues (sortedScores : List (String × List (ℚ × ℚ))) : List ℚ :=
  sortedScores.map (fun p => seriesMin p.2)

/-- The violations dict: endpoints whose aggregate is below the
threshold, each with its minimum-reliability entry. -/
def violationsOf (threshold : ℚ) (sortedScores : List (String × List (ℚ × ℚ))) :
    List (String × (ℚ × ℚ)) :=
  (sortedScores.filter (fun p => decide (seriesMin p.2 < threshold))).map
    (fun p => (p.1, minBySnd p.2))

/-- Embedding of gate.py's evaluate_gate after _load_results: selection,
per-endpoint aggregation, and the verdict under the requested mode
("mean" averages the aggregates, anything else fails on any
violation). -/
def evaluate_gate_core (payloads : List ((ℚ × String) × Doc)) (threshold : ℚ)
    (mode : String) (results_mode : Option String) (filters : List String) : GateResult :=
  let scores := select_endpoints payloads filters results_mode
  if scores.isEmpty then
    { passed := true, reason := skipReason results_mode, scores := scores }
  else
    let sortedScores := sortScores scores
    let aggregate_values := aggregateValues sortedScores
    let violations := violationsOf threshold sortedScores
    let pr : Bool × String :=
      if mode = "mean" then
        (decide (threshold ≤ aggregate_values.sum / (aggregate_values.length : ℚ)),
          "mean reliability=" ++ fmtQ (aggregate_values.sum / (aggregate_values.length : ℚ)) ++
            " (threshold=" ++ fmtQ threshold ++ ")")
      else
        (violations.isEmpty,
          "min reliability=" ++ fmtQ (minD aggregate_values) ++
            " (threshold=" ++ fmtQ threshold ++ ")")
    let reason :=
      if violations.isEmpty then pr.2
      else
        "Violations: " ++
          String.intercalate ", "
            ((sortOn (fun a b => decide (a.1 < b.1)) violations).map
              (fun v => v.1 ++ " @ pfail=" ++ fmtQ v.2.1 ++ " -> " ++ fmtQ v.2.2)) ++
          "; " ++ pr.2
    { passed := pr.1, reason := reason, scores := sortedScores }

/-- Embedding of gate.py's evaluate_gate over a results directory given
as (filename, document) pairs. -/
def evaluate_gate (docs : List (String × Doc)) (threshold : ℚ) (mode : String)
    (results_mode : Option String) (filters : List String) :
    Except LoadError GateResult :=
  match load_results docs with
  | Except.error e => Except.error e
  | Except.ok payloads =>
    Except.ok (evaluate_gate_core payloads threshold mode results_mode filters)

lemma insertSorted_perm {α : Type} (lt : α → α → Bool) (a : α) (l : List α) :
    (insertSorted lt a l).Perm (a :: l) := by
  induction l with
  | nil => exact List.Perm.refl _
  | cons b rest ih =>
    unfold insertSorted
    by_cases h : lt b a = true
    · rw [if_pos h]
      exact (ih.cons b).trans (List.Perm.swap a b rest)
    · rw [if_neg h]

lemma sortOn_perm {α : Type} (lt : α → α → Bool) (l : List α) :
    (sortOn lt l).Perm l := by
  induction l with
  | nil => exact List.Perm.refl _
  | cons a rest ih =>
    exact (insertSorted_perm lt a (sortOn lt rest)).trans (ih.cons a)

lemma dictLookup_dictInsert {α β : Type} [DecidableEq α] (l : List (α × β)) (k k' : α) (v : β) :
    dictLookup (dictInsert l k v) k' = if k' = k then some v else dictLookup l k' := by
  induction l with
  | nil =>
    rw [dictInsert]
    by_cases h : k' = k
    · subst h
      simp [dictLookup]
    · simp [dictLookup, h, Ne.symm h]
  | cons hd tl ih =>
    rcases hd with ⟨k0, v0⟩
    rw [dictInsert]
    by_cases h0 : k0 = k
    · subst h0
      rw [if_pos rfl]
      by_cases h' : k' = k0
      · subst h'
        rw [dictLookup, if_pos rfl, if_pos rfl]
      · rw [dictLookup, if_neg (Ne.symm h'), if_neg h', dictLookup, if_neg (Ne.symm h')]
    · rw [if_neg h0]
      by_cases h' : k' = k0
      · subst h'
        rw [dictLookup, if_pos rfl, if_neg h0, dictLookup, if_pos rfl]
      · rw [dictLookup, if_neg (Ne.symm h'), ih, dictLookup, if_neg (Ne.symm h')]

lemma loadStep_eq (acc : List ((ℚ × String) × Doc)) (fd : String × Doc) :
    loadStep acc fd =
      match docKey fd with
      | some key => Except.ok (dictInsert acc key fd.2)
      | none =>
        if docPfailConvertible fd then Except.ok acc
        else Except.error (LoadError.pfailNotNumeric fd.1) := by
  rcases fd with ⟨name, doc⟩
  rcases doc with ⟨_ | s, eps⟩
  · rfl
  · rcases s with ⟨_ | v, mo, rf⟩
    · rfl
    · rcases v with q | _ <;> rfl

lemma docKey_some_convertible (fd : String × Doc) (key : ℚ × String)
    (h : docKey fd = some key) : docPfailConvertible fd = true := by
  rcases fd with ⟨name, doc⟩
  rcases doc with ⟨_ | s, eps⟩
  · cases h
  · rcases s with ⟨_ | v, mo, rf⟩
    · cases h
    · rcases v with q | _
      · rfl
      · cases h

lemma load_go_isOk (l : List (String × Doc)) :
    ∀ acc, (load_results_go l acc).isOk = true ↔
      ∀ fd ∈ l, docPfailConvertible fd = true := by
  induction l with
  | nil => intro acc; simp [load_results_go, Except.isOk, Except.toBool]
  | cons fd rest ih =>
    intro acc
    rw [load_results_go, loadStep_eq]
    rcases hk : docKey fd with _ | key
    · by_cases hc : docPfailConvertible fd = true
      · rw [if_pos hc]
        dsimp only
        rw [ih]
        constructor
        · intro h fd' hfd'
          rcases List.mem_cons.mp hfd' with rfl | hm
          · exact hc
          · exact h fd' hm
        · intro h fd' hm; exact h fd' (List.mem_cons_of_mem _ hm)
      · rw [if_neg hc]
        dsimp only
        simp only [Except.isOk, Except.toBool]
        constructor
        · intro h; exact Bool.noConfusion h
        · intro h; exact absurd (h fd (List.mem_cons_self _ _)) hc
    · dsimp only
      rw [ih]
      have hc : docPfailConvertible fd = true := docKey_some_convertible fd key hk
      constructor
      · intro h fd' hfd'
        rcases List.mem_cons.mp hfd' with rfl | hm
        · exact hc
        · exact h fd' hm
      · intro h fd' hm; exact h fd' (List.mem_cons_of_mem _ hm)

lemma getLast?_cons_general {α : Type} (a : α) (l : List α) :
    (a :: l).getLast? = some (l.getLast?.getD a) := by
  induction l generalizing a with
  | nil => rfl
  | cons b rest ih =>
    rw [List.getLast?_cons_cons, ih b]
    rfl

lemma load_go_lookup (l : List (String × Doc)) :
    ∀ acc m, load_results_go l acc = Except.ok m →
      ∀ key, dictLookup m key =
        match (l.filter (fun fd => docKey fd = some key)).getLast? with
        | some fd => some fd.2
        | none => dictLookup acc key := by
  induction l with
  | nil =>
    intro acc m hm key
    rw [load_results_go] at hm
    cases hm
    rfl
  | cons fd rest ih =>
    intro acc m hm key
    rw [load_results_go, loadStep_eq] at hm
    rcases hk : docKey fd with _ | key0
    · rw [hk] at hm
      dsimp only at hm
      by_cases hc : docPfailConvertible fd = true
      · rw [if_pos hc] at hm
        have h2 := ih acc m hm key
        rw [List.filter_cons, if_neg (by simp [hk])]
        exact h2
      · rw [if_neg hc] at hm
        cases hm
    · rw [hk] at hm
      dsimp only at hm
      have h2 := ih (dictInsert acc key0 fd.2) m hm key
      rw [List.filter_cons]
      by_cases hkey : key0 = key
      · subst hkey
        rw [if_pos (by simp [hk]), getLast?_cons_general]
        rcases hrf : (rest.filter (fun fd => docKey fd = some key0)).getLast? with _ | fd'
        · rw [hrf] at h2
          rw [dictLookup_dictInsert, if_pos rfl] at h2
          exact h2
        · rw [hrf] at h2
          exact h2
      · rw [if_neg (by simp [hk, hkey])]
        rw [dictLookup_dictInsert, if_neg (Ne.symm hkey)] at h2
        exact h2

/-- Claim C3: whenever the endpoint selection is empty (empty directory,
nothing survives loading, or the filters exclude everything),
evaluate_gate returns a passing result with the explanatory skip
reason. -/
theorem claim_C3 (docs : List (String × Doc)) (payloads : List ((ℚ × String) × Doc))
    (threshold : ℚ) (mode : String) (results_mode : Option String) (filters : List String)
    (hload : load_results docs = Except.ok payloads)
    (hempty : select_endpoints payloads filters results_mode = []) :
    evaluate_gate docs threshold mode results_mode filters =
      Except.ok { passed := true, reason := skipReason results_mode, scores := [] } := by
  unfold evaluate_gate
  rw [hload]
  dsimp only
  unfold evaluate_gate_core
  rw [hempty]
  rfl

/-- Witness for claim C3: the empty results directory. -/
theorem claim_C3_witness :
    evaluate_gate [] 1 "any" (some "norepl") [] =
      Except.ok { passed := true, reason := skipReason (some "norepl"), scores := [] } :=
  claim_C3 [] [] 1 "any" (some "norepl") [] rfl rfl

/-- Sample result document whose summary.pfail is JSON null. -/
def dNull : Doc :=
  { summary := some { pfail := some JVal.jnull, mode := some "norepl", replicas_file := none },
    endpoints := [] }

/-- Sample well-formed result document. -/
def dGood : Doc :=
  { summary := some { pfail := some (JVal.jnum 0), mode := some "norepl", replicas_file := none },
    endpoints := [("/A", some 1)] }

/-- Counterexample to claim C5 as stated: a document whose summary.pfail
is null lacks a numeric pfail, yet _load_results raises instead of
skipping it and continuing with the rest; alone, the rest would load. -/
theorem claim_C5_counterexample :
    load_results [("a.json", dNull), ("b.json", dGood)] =
      Except.error (LoadError.pfailNotNumeric "a.json") ∧
    load_results [("b.json", dGood)] = Except.ok [((0, "norepl"), dGood)] :=
  ⟨by with_unfolding_all rfl, by with_unfolding_all rfl⟩

/-- Claim C5 as amended: documents are scanned in sorted filename order;
a document without a summary dict or without a pfail key is skipped and
the scan continues, a present pfail that float() cannot convert raises
instead, and among the documents deriving the same (pfail, mode) key the
last one in scan order silently wins. -/
theorem claim_C5_amended (docs : List (String × Doc)) :
    ((load_results docs).isOk = true ↔ ∀ fd ∈ docs, docPfailConvertible fd = true) ∧
    (∀ m, load_results docs = Except.ok m → ∀ key,
      dictLookup m key =
        (((sortOn (fun a b => decide (a.1 < b.1)) docs).filter
          (fun fd => docKey fd = some key)).getLast?).map (fun fd => fd.2)) := by
  constructor
  · unfold load_results
    rw [load_go_isOk]
    constructor
    · intro h fd hfd
      exact h fd ((sortOn_perm (fun a b => decide (a.1 < b.1)) docs).mem_iff.mpr hfd)
    · intro h fd hfd
      exact h fd ((sortOn_perm (fun a b => decide (a.1 < b.1)) docs).mem_iff.mp hfd)
  · intro m hm key
    have h2 := load_go_lookup _ [] m hm key
    rcases hlast : ((sortOn (fun a b => decide (a.1 < b.1)) docs).filter
        (fun fd => docKey fd = some key)).getLast? with _ | fd
    · rw [hlast] at h2
      rw [hlast, h2]
      rfl
    · rw [hlast] at h2
      rw [hlast, h2]
      rfl

/-- Witness for claim C5 (amended): two documents with distinct keys;
the later filename wins nothing here, each key maps to its document. -/
theorem claim_C5_amended_witness :
    dictLookup [((0, "norepl"), dGood)] ((0 : ℚ), "norepl") =
      (((sortOn (fun a b => decide (a.1 < b.1)) [("b.json", dGood)]).filter
        (fun fd => docKey fd = some ((0 : ℚ), "norepl"))).getLast?).map (fun fd => fd.2) :=
  (claim_C5_amended [("b.json", dGood)]).2 [((0, "norepl"), dGood)]
    (by with_unfolding_all rfl) ((0 : ℚ), "norepl")

lemma foldl_min_le_init (l : List ℚ) : ∀ a : ℚ, l.foldl min a ≤ a := by
  induction l with
  | nil => intro a; exact le_refl a
  | cons x rest ih =>
    intro a
    exact le_trans (ih (min a x)) (min_le_left a x)

lemma foldl_min_le_mem (l : List ℚ) : ∀ a : ℚ, ∀ x ∈ l, l.foldl min a ≤ x := by
  induction l with
  | nil => intro a x hx; cases hx
  | cons y rest ih =>
    intro a x hx
    rcases List.mem_cons.mp hx with rfl | hx
    · exact le_trans (foldl_min_le_init rest (min a x)) (min_le_right a x)
    · exact ih (min a y) x hx

lemma foldl_min_cases (l : List ℚ) : ∀ a : ℚ, l.foldl min a = a ∨ ∃ x ∈ l, l.foldl min a = x := by
  induction l with
  | nil => intro a; exact Or.inl rfl
  | cons y rest ih =>
    intro a
    rcases ih (min a y) with h | ⟨x, hx, hfx⟩
    · rcases le_total a y with hay | hya
      · left
        rw [List.foldl_cons, h, min_eq_left hay]
      · right
        exact ⟨y, List.mem_cons_self _ _, by rw [List.foldl_cons, h, min_eq_right hya]⟩
    · right
      exact ⟨x, List.mem_cons_of_mem _ hx, by rw [List.foldl_cons]; exact hfx⟩

lemma seriesMin_eq_minD_map (l : List (ℚ × ℚ)) : seriesMin l = minD (l.map (fun p => p.2)) := by
  rcases l with _ | ⟨e, rest⟩
  · rfl
  · rw [seriesMin, List.map_cons, minD, List.foldl_map]

lemma minD_le_mem (l : List ℚ) : ∀ x ∈ l, minD l ≤ x := by
  rcases l with _ | ⟨a, rest⟩
  · intro x hx; cases hx
  · intro x hx
    rcases List.mem_cons.mp hx with rfl | hx
    · exact foldl_min_le_init rest x
    · exact foldl_min_le_mem rest a x hx

lemma minD_mem (l : List ℚ) (h : l ≠ []) : minD l ∈ l := by
  rcases l with _ | ⟨a, rest⟩
  · exact absurd rfl h
  · rw [minD]
    rcases foldl_min_cases rest a with h2 | ⟨x, hx, hfx⟩
    · rw [h2]; exact List.mem_cons_self _ _
    · rw [hfx]; exact List.mem_cons_of_mem _ hx

lemma minD_perm (l1 l2 : List ℚ) (hp : l1.Perm l2) : minD l1 = minD l2 := by
  rcases hl1 : l1 with _ | ⟨a, rest⟩
  · have : l2 = [] := by
      subst hl1
      exact hp.nil_eq.symm
    rw [this]
  · have h1 : l1 ≠ [] := by rw [hl1]; exact List.cons_ne_nil a rest
    have h2 : l2 ≠ [] := by
      intro hx
      rw [hx] at hp
      rw [hl1] at hp
      exact List.cons_ne_nil a rest (List.Perm.eq_nil hp)
    rw [← hl1]
    apply le_antisymm
    · exact minD_le_mem l1 (minD l2) (hp.mem_iff.mpr (minD_mem l2 h2))
    · exact minD_le_mem l2 (minD l1) (hp.mem_iff.mp (minD_mem l1 h1))

lemma seriesMin_sortOn (lt : (ℚ × ℚ) → (ℚ × ℚ) → Bool) (l : List (ℚ × ℚ)) :
    seriesMin (sortOn lt l) = seriesMin l := by
  rw [seriesMin_eq_minD_map, seriesMin_eq_minD_map]
  exact minD_perm _ _ ((sortOn_perm lt l).map (fun p => p.2))

lemma aggregateValues_sortScores (scores : List (String × List (ℚ × ℚ))) :
    aggregateValues (sortScores scores) = scores.map (fun p => seriesMin p.2) := by
  unfold aggregateValues sortScores
  rw [List.map_map]
  apply List.map_congr_left
  intro p _
  exact seriesMin_sortOn _ _

lemma violationsOf_isEmpty_iff (threshold : ℚ) (scores : List (String × List (ℚ × ℚ))) :
    (violationsOf threshold (sortScores scores)).isEmpty = true ↔
      ∀ p ∈ scores, threshold ≤ seriesMin p.2 := by
  unfold violationsOf sortScores
  rw [List.isEmpty_iff, List.map_eq_nil_iff, List.filter_eq_nil_iff]
  constructor
  · intro h p hp
    have h2 := h (p.1, sortOn (fun a b => decide (a.1 < b.1)) p.2)
      (List.mem_map.mpr ⟨p, hp, rfl⟩)
    rw [decide_eq_true_eq] at h2
    have h3 := seriesMin_sortOn (fun a b => decide (a.1 < b.1)) p.2
    dsimp only at h2
    rw [h3] at h2
    exact not_lt.mp h2
  · intro h q hq
    rcases List.mem_map.mp hq with ⟨p, hp, rfl⟩
    rw [decide_eq_true_eq]
    dsimp only
    rw [seriesMin_sortOn]
    exact not_lt.mpr (h p hp)

/-- Claim C1: with a non-empty selection, each endpoint's aggregate
score is the minimum reliability over its whole series; under mode
"mean" the gate passes exactly when the arithmetic mean of the
aggregates reaches the threshold, and under mode "any" exactly when no
endpoint's aggregate is below the threshold. -/
theorem claim_C1 (payloads : List ((ℚ × String) × Doc)) (threshold : ℚ) (mode : String)
    (results_mode : Option String) (filters : List String)
    (hne : select_endpoints payloads filters results_mode ≠ []) :
    (mode = "mean" →
      ((evaluate_gate_core payloads threshold mode results_mode filters).passed = true ↔
        threshold ≤
          ((select_endpoints payloads filters results_mode).map (fun p => seriesMin p.2)).sum /
            ((select_endpoints payloads filters results_mode).length : ℚ))) ∧
    (mode = "any" →
      ((evaluate_gate_core payloads threshold mode results_mode filters).passed = true ↔
        ∀ p ∈ select_endpoints payloads filters results_mode, threshold ≤ seriesMin p.2)) := by
  have hpassed : (evaluate_gate_core payloads threshold mode results_mode filters).passed =
      (if mode = "mean" then
        decide (threshold ≤
          (aggregateValues (sortScores (select_endpoints payloads filters results_mode))).sum /
            ((aggregateValues (sortScores (select_endpoints payloads filters results_mode))).length : ℚ))
      else (violationsOf threshold (sortScores (select_endpoints payloads filters results_mode))).isEmpty) := by
    unfold evaluate_gate_core
    rcases hS : select_endpoints payloads filters results_mode with _ | ⟨s0, srest⟩
    · exact absurd hS hne
    · dsimp only
      simp only [List.isEmpty_cons, Bool.false_eq_true, if_false]
      by_cases hm : mode = "mean"
      · rw [if_pos hm, if_pos hm]
      · rw [if_neg hm, if_neg hm]
  constructor
  · intro hm
    rw [hpassed, if_pos hm, decide_eq_true_eq, aggregateValues_sortScores, List.length_map]
  · intro hm
    have hm2 : mode ≠ "mean" := by rw [hm]; decide
    rw [hpassed, if_neg hm2, violationsOf_isEmpty_iff]

/-- Witness for claim C1 on a one-document, one-endpoint selection. -/
theorem claim_C1_witness :
    (("any" : String) = "mean" →
      ((evaluate_gate_core [((0, "norepl"), dGood)] 1 "any" none []).passed = true ↔
        1 ≤ ((select_endpoints [((0, "norepl"), dGood)] [] none).map (fun p => seriesMin p.2)).sum /
          ((select_endpoints [((0, "norepl"), dGood)] [] none).length : ℚ))) ∧
    (("any" : String) = "any" →
      ((evaluate_gate_core [((0, "norepl"), dGood)] 1 "any" none []).passed = true ↔
        ∀ p ∈ select_endpoints [((0, "norepl"), dGood)] [] none, 1 ≤ seriesMin p.2)) :=
  claim_C1 [((0, "norepl"), dGood)] 1 "any" none [] (by with_unfolding_all decide)
